import Mathlib

/-!
Shallow embedding of the gsession redis/memory session storages
(`src/os/gsession/gsession_storage_redis.go`,
`src/os/gsession/gsession_storage_memory.go`).

Go `time.Duration` is an `int64` count of nanoseconds; it is modelled as `Int`.
The redis backend is modelled as an association list from key to stored blob,
and each network call is modelled by the command value it sends plus a pure
transition of that store.  Fallible calls are parameterised by the reply
(`Except`) so that backend failures can be stated.
-/

/-- Go `time.Duration`: a signed count of nanoseconds. -/
abbrev Duration := Int

/-- Number of nanoseconds per second (`time.Second`). -/
def nanosPerSecond : Int := 1000000000

/-- Source: `DefaultStorageRedisLoopInterval = 10 * time.Second`
(gsession_storage_redis.go line 30): the flush interval of the TTL-updating
timer. -/
def DefaultStorageRedisLoopInterval : Duration := 10 * nanosPerSecond

/-- Binary-search step used by `natLog2`: if `2 ^ k` divides into the value,
add `k` to the exponent and shift the value down by `k` bits. -/
def natLog2Step (p : Nat × Nat) (k : Nat) : Nat × Nat :=
  if 2 ^ k ≤ p.2 then (p.1 + k, p.2 / 2 ^ k) else p

/-- Floor of the base-2 logarithm, by an 8-level binary search; exact for
every argument below `2 ^ 256` (all mantissas arising from int64 durations
are below `2 ^ 107`). -/
def natLog2 (n : Nat) : Nat :=
  (natLog2Step (natLog2Step (natLog2Step (natLog2Step (natLog2Step (natLog2Step
    (natLog2Step (natLog2Step (0, n) 128) 64) 32) 16) 8) 4) 2) 1).1

/-- Round the rational `m / n` (with `n > 0`) to the nearest integer, ties to
even: the rounding used by every IEEE-754 operation in round-to-nearest-even
mode. -/
def roundHalfEvenRat (m n : Int) : Int :=
  if 2 * (m % n) < n then m / n
  else if n < 2 * (m % n) then m / n + 1
  else if m / n % 2 = 0 then m / n else m / n + 1

/-- A dyadic rational `m * 2 ^ t`: the exact value of an IEEE-754 binary64
number.  Go `float64` values are modelled by this exact representation. -/
structure Dyadic where
  m : Int
  t : Int
deriving DecidableEq

/-- The rational value of a dyadic number (used in proofs only). -/
def Dyadic.val (x : Dyadic) : ℚ := (x.m : ℚ) * (2 : ℚ) ^ x.t

/-- Binade exponent of `|m * 2 ^ t / n|`: the unique `e` with
`2 ^ e ≤ |value| < 2 ^ (e+1)` (for nonzero `m`, positive `n`, magnitudes in
the range where `natLog2` is exact). -/
def valBinade (m t : Int) (n : Nat) : Int :=
  let L : Int := natLog2 m.natAbs
  let M : Int := natLog2 n
  let e0 : Int := L + t - M
  if M ≤ L then
    (if (n : Int) * 2 ^ (L - M).toNat ≤ (m.natAbs : Int) then e0 else e0 - 1)
  else
    (if (n : Int) ≤ (m.natAbs : Int) * 2 ^ (M - L).toNat then e0 else e0 - 1)

/-- Round the rational `m * 2 ^ t / n` to the nearest IEEE-754 binary64
value, ties to even: the mantissa is rounded at 53 significant bits
(`2 ^ 52 ≤ |mantissa| < 2 ^ 53` before rounding).  This models every
correctly rounded float64 operation in the normal range; every value arising
from an int64 duration in `Seconds` is zero or normal, so overflow and
subnormal handling are never reached. -/
def flVal (m t : Int) (n : Nat) : Dyadic :=
  if m = 0 then ⟨0, 0⟩
  else
    let e := valBinade m t n
    let s := t + 52 - e
    let R :=
      if 0 ≤ s then roundHalfEvenRat (m * 2 ^ s.toNat) n
      else roundHalfEvenRat m ((n : Int) * 2 ^ (-s).toNat)
    ⟨R, e - 52⟩

/-- Go `float64(v)` conversion of an integer: correctly rounded. -/
def float64OfInt (v : Int) : Dyadic := flVal v 0 1

/-- Go float64 division by the exactly representable integer constant `n`
(here always `1e9`): correctly rounded quotient. -/
def float64DivNat (x : Dyadic) (n : Nat) : Dyadic := flVal x.m x.t n

/-- Go float64 addition: the exact dyadic sum, correctly rounded. -/
def float64Add (x y : Dyadic) : Dyadic :=
  if x.t ≤ y.t then flVal (x.m + y.m * 2 ^ (y.t - x.t).toNat) x.t 1
  else flVal (x.m * 2 ^ (x.t - y.t).toNat + y.m) y.t 1

/-- Go `int64(x)` / `int(x)` conversion from float64: truncation toward
zero. -/
def float64TruncToInt (x : Dyadic) : Int :=
  if 0 ≤ x.t then x.m * 2 ^ x.t.toNat else Int.tdiv x.m (2 ^ (-x.t).toNat)

/-- Go `time.Duration.Seconds`:
`sec := d / Second; nsec := d % Second; return float64(sec) + float64(nsec)/1e9`,
with the conversion, the division and the addition each correctly rounded in
IEEE-754 binary64 round-to-nearest-even.  The float constant `1e9` is the
integer `1000000000`, which is exactly representable. -/
def durationSeconds (d : Int) : Dyadic :=
  float64Add (float64OfInt (Int.tdiv d nanosPerSecond))
    (float64DivNat (float64OfInt (Int.tmod d nanosPerSecond)) 1000000000)

/-- Go `int(d.Seconds())` / `int64(d.Seconds())` as the program computes it:
truncation of the float64 value of `Seconds`.  For durations below `2 ^ 24`
seconds this is the truncated whole number of seconds; for larger durations
the float64 rounding of `Seconds` can round the sub-second part up, making
the result one second larger than the truncation
(e.g. at `16777216999999999` ns). -/
def durSeconds (d : Duration) : Int := float64TruncToInt (durationSeconds d)

/-- Modelled from the spec: the JSON-like dynamic value type of session
payloads (the repository `internal/json` encoding is not under `src/`).
Numbers are decoded in a number-preserving mode (`UnmarshalUseNumber`), so
integer payload values are modelled exactly as `Int`. -/
inductive JVal where
  | null
  | boolean (b : Bool)
  | number (n : Int)
  | strVal (s : String)
  | arrVal (elems : List JVal)
  | objVal (fields : List (String × JVal))

/-- A flat string-keyed JSON object: the decoded form of a session map. -/
abbrev JObj := List (String × JVal)

/-- Modelled from the spec: `gmap.StrAnyMap` (the repository `container/gmap`
is not under `src/`).  The spec requires that `Replace` swaps the contents in
place, preserving the identity the caller holds; identity is modelled by the
`ref` field, contents by `entries`. -/
structure StrAnyMap where
  ref : Nat
  entries : JObj

/-- Modelled from the spec: `gmap.StrAnyMap.Replace` replaces the map contents
in place (same `ref`, new entries). -/
def StrAnyMap.Replace (d : StrAnyMap) (fields : JObj) : StrAnyMap :=
  ⟨d.ref, fields⟩

/-- Modelled from the spec: `gmap.NewStrAnyMapFrom` allocates a fresh map
(fresh `ref`) holding the given entries. -/
def NewStrAnyMapFrom (freshRef : Nat) (fields : JObj) : StrAnyMap :=
  ⟨freshRef, fields⟩

/-- Modelled from the spec: the serialized blob stored under a session key.
`empty` is a zero-length byte string; `json v` is a well-formed encoding of
the JSON value `v` (never zero-length); `corrupt` is a non-empty byte string
that is not valid JSON. -/
inductive Blob where
  | empty
  | json (v : JVal)
  | corrupt

/-- Modelled from the spec: `json.Marshal` of a session map encodes its
entries as a flat JSON object (field names and numbers preserved); it never
fails on JSON values. -/
def jsonMarshal (d : StrAnyMap) : Blob :=
  Blob.json (JVal.objVal d.entries)

/-- Error outcome of `GetSession`: either the redis `GET` itself failed, or
the stored payload did not decode into a string-keyed map
(`json.UnmarshalUseNumber` error). -/
inductive LoadErr where
  | redisFailure (msg : String)
  | decodeFailure
deriving DecidableEq

/-- Source: `sessionIdToRedisKey` (gsession_storage_redis.go lines 175-177): backend
key is the configured key namespace string concatenated with the session id. -/
def sessionIdToRedisKey (ns sessionId : String) : String :=
  ns ++ sessionId

/-- The external redis store contents: key to stored blob. -/
abbrev Store := List (String × Blob)

/-- Upsert into the store (redis `SET`/`SETEX` overwrites an existing key). -/
def storeSet : Store → String → Blob → Store
  | [], k, v => [(k, v)]
  | (k1, v1) :: rest, k, v =>
      if k1 = k then (k, v) :: rest else (k1, v1) :: storeSet rest k v

/-- Lookup in the store (redis `GET`; `none` when the key is absent). -/
def storeGet : Store → String → Option Blob
  | [], _ => none
  | (k1, v1) :: rest, k => if k1 = k then some v1 else storeGet rest k

/-- Reply of a healthy backend to `GET key`: no I/O error, and the blob when
the key is present.  An absent key yields a nil bulk reply, whose `Bytes()`
is zero-length, modelled as `none`. -/
def redisGet (store : Store) (key : String) : Except String (Option Blob) :=
  Except.ok (storeGet store key)

/-- Source: `StorageRedis.GetSession` (gsession_storage_redis.go lines 120-142),
as a function of the `GET` reply: a redis error propagates; zero-length
content returns `(nil, nil)`; a payload that does not decode into a map
returns the decode error; a payload decoding to JSON `null` leaves the Go map
nil and the `m == nil` check returns `(nil, nil)`; otherwise the decoded
entries populate a fresh map when `data` is nil, and replace the supplied data map
contents in place when it is not. -/
def GetSession (reply : Except String (Option Blob)) (data : Option StrAnyMap)
    (freshRef : Nat) : Except LoadErr (Option StrAnyMap) :=
  match reply with
  | Except.error e => Except.error (LoadErr.redisFailure e)
  | Except.ok none => Except.ok none
  | Except.ok (some Blob.empty) => Except.ok none
  | Except.ok (some Blob.corrupt) => Except.error LoadErr.decodeFailure
  | Except.ok (some (Blob.json v)) =>
      match v with
      | JVal.null => Except.ok none
      | JVal.objVal fields =>
          match data with
          | none => Except.ok (some (NewStrAnyMapFrom freshRef fields))
          | some d => Except.ok (some (d.Replace fields))
      | _ => Except.error LoadErr.decodeFailure

/-- The `SETEX key ttlSeconds value` command sent by `SetSession`. -/
structure SetexCmd where
  key : String
  ttlSeconds : Int
  value : Blob

/-- Source: `StorageRedis.SetSession` (gsession_storage_redis.go lines 147-155):
marshals the session map and issues
`SETEX (prefix+id) int64(ttl.Seconds()) content`.  Returns the store after
the write together with the command sent. -/
def SetSession (ns : String) (store : Store) (sessionId : String)
    (data : StrAnyMap) (ttl : Duration) : Store × SetexCmd :=
  let cmd : SetexCmd :=
    ⟨sessionIdToRedisKey ns sessionId, durSeconds ttl, jsonMarshal data⟩
  (storeSet store cmd.key cmd.value, cmd)

/-- Modelled from the spec: `gmap.StrIntMap` (the repository
`container/gmap` is not under `src/`), the Pending-Renewal Set.  A finite
map from session id to pending TTL seconds, modelled as an association list
with pairwise-distinct keys maintained by `set`. -/
abbrev StrIntMap := List (String × Int)

/-- Modelled from the spec: `gmap.StrIntMap.Set` is insert-or-overwrite. -/
def StrIntMap.set : StrIntMap → String → Int → StrIntMap
  | [], k, v => [(k, v)]
  | (k1, v1) :: rest, k, v =>
      if k1 = k then (k, v) :: rest else (k1, v1) :: StrIntMap.set rest k v

/-- Lookup of the pending TTL seconds queued for a session id. -/
def StrIntMap.lookupTTL : StrIntMap → String → Option Int
  | [], _ => none
  | (k1, v1) :: rest, k => if k1 = k then some v1 else StrIntMap.lookupTTL rest k

/-- Number of entries a session id has in the Pending-Renewal Set. -/
def StrIntMap.countKey (m : StrIntMap) (k : String) : Nat :=
  (m.filter (fun p => p.1 = k)).length

/-- The keys of the map are pairwise distinct (invariant of a Go map). -/
def StrIntMap.KeysDistinct (m : StrIntMap) : Prop :=
  (m.map Prod.fst).Nodup

/-- Modelled from the spec: `gmap.StrIntMap.Pop` removes and returns one
arbitrary entry (here: the first), and returns the zero values `("", 0)` on
an empty map.  The drain order is unspecified; this model fixes one of the
possible orders. -/
def StrIntMap.pop : StrIntMap → String × Int × StrIntMap
  | [] => ("", 0, [])
  | (k, v) :: rest => (k, v, rest)

/-- Source: `StorageRedis.UpdateTTL` (gsession_storage_redis.go lines 160-166): when
`ttl >= DefaultStorageRedisLoopInterval` it upserts
`(sessionId, int(ttl.Seconds()))` into the Pending-Renewal Set, otherwise it
leaves the set untouched; either way it returns a nil error.  The result is
the new set together with the returned error. -/
def UpdateTTL (m : StrIntMap) (sessionId : String) (ttl : Duration) :
    StrIntMap × Option String :=
  (if DefaultStorageRedisLoopInterval ≤ ttl then
      StrIntMap.set m sessionId (durSeconds ttl)
    else m,
   none)

/-- The `EXPIRE key ttlSeconds` command sent by `doUpdateTTL`. -/
structure ExpireCmd where
  key : String
  ttlSeconds : Int
deriving DecidableEq

/-- Source: `StorageRedis.doUpdateTTL` (gsession_storage_redis.go lines 169-173):
issues `EXPIRE (prefix+id) ttlSeconds`. -/
def doUpdateTTL (ns sessionId : String) (ttlSeconds : Int) : ExpireCmd :=
  ⟨sessionIdToRedisKey ns sessionId, ttlSeconds⟩

/-- Outcome of one invocation of the renewal-flusher timer callback:
the Pending-Renewal Set left behind, the `EXPIRE` commands issued (in
order), and the failed commands that were logged. -/
structure FlushResult where
  remaining : StrIntMap
  calls : List ExpireCmd
  logged : List ExpireCmd
deriving DecidableEq

/-- The timer callback installed by `NewStorageRedis`
(gsession_storage_redis.go lines 47-64): loop `Pop()`; break as soon as the
popped session id is the empty string (which is also what `Pop` returns on an
empty set); otherwise call `doUpdateTTL` and, when the backend reports a
failure (`fail` oracle), log the error and continue.  A failure has no other
effect on the loop. -/
def flushTimer (ns : String) (fail : ExpireCmd → Bool) : StrIntMap → FlushResult
  | [] => ⟨[], [], []⟩
  | (sessionId, ttlSeconds) :: rest =>
      if sessionId = "" then ⟨rest, [], []⟩
      else
        let cmd := doUpdateTTL ns sessionId ttlSeconds
        let r := flushTimer ns fail rest
        ⟨r.remaining, cmd :: r.calls,
          if fail cmd then cmd :: r.logged else r.logged⟩

/-- Modelled from the spec: the stable sentinel `ErrorDisabled` (defined in
the repository gsession package outside `src/`) and backend-originated
errors. -/
inductive SessionError where
  | disabled
  | backend (msg : String)
deriving DecidableEq

/-- Source: `StorageRedis.New` (gsession_storage_redis.go lines 70-72). -/
def StorageRedis.New (ttl : Duration) : String × Option SessionError :=
  ("", some SessionError.disabled)

/-- Source: `StorageRedis.Get` (gsession_storage_redis.go lines 76-78). -/
def StorageRedis.Get (sessionId key : String) :
    Option JVal × Option SessionError :=
  (none, some SessionError.disabled)

/-- Source: `StorageRedis.Data` (gsession_storage_redis.go lines 81-83). -/
def StorageRedis.Data (sessionId : String) :
    Option JObj × Option SessionError :=
  (none, some SessionError.disabled)

/-- Source: `StorageRedis.GetSize` (gsession_storage_redis.go lines 86-88). -/
def StorageRedis.GetSize (sessionId : String) : Int × Option SessionError :=
  (-1, some SessionError.disabled)

/-- Source: `StorageRedis.Set` (gsession_storage_redis.go lines 92-94). -/
def StorageRedis.Set (sessionId key : String) (value : JVal) (ttl : Duration) :
    Option SessionError :=
  some SessionError.disabled

/-- Source: `StorageRedis.SetMap` (gsession_storage_redis.go lines 98-100). -/
def StorageRedis.SetMap (sessionId : String) (data : JObj) (ttl : Duration) :
    Option SessionError :=
  some SessionError.disabled

/-- Source: `StorageRedis.Remove` (gsession_storage_redis.go lines 103-105). -/
def StorageRedis.Remove (sessionId key : String) : Option SessionError :=
  some SessionError.disabled

/-- Source: `StorageMemory.New` (gsession_storage_memory.go lines 26-28). -/
def StorageMemory.New (ttl : Duration) : String × Option SessionError :=
  ("", some SessionError.disabled)

/-- Source: `StorageMemory.Get` (gsession_storage_memory.go lines 32-34). -/
def StorageMemory.Get (sessionId key : String) :
    Option JVal × Option SessionError :=
  (none, some SessionError.disabled)

/-- Source: `StorageMemory.Data` (gsession_storage_memory.go lines 37-39). -/
def StorageMemory.Data (sessionId : String) :
    Option JObj × Option SessionError :=
  (none, some SessionError.disabled)

/-- Source: `StorageMemory.GetSize` (gsession_storage_memory.go lines 42-44). -/
def StorageMemory.GetSize (sessionId : String) : Int × Option SessionError :=
  (-1, some SessionError.disabled)

/-- Source: `StorageMemory.Set` (gsession_storage_memory.go lines 48-50). -/
def StorageMemory.Set (sessionId key : String) (value : JVal) (ttl : Duration) :
    Option SessionError :=
  some SessionError.disabled

/-- Source: `StorageMemory.SetMap` (gsession_storage_memory.go lines 54-56). -/
def StorageMemory.SetMap (sessionId : String) (data : JObj) (ttl : Duration) :
    Option SessionError :=
  some SessionError.disabled

/-- Source: `StorageMemory.Remove` (gsession_storage_memory.go lines 59-61). -/
def StorageMemory.Remove (sessionId key : String) : Option SessionError :=
  some SessionError.disabled

/-- Source: `StorageMemory.RemoveAll` (gsession_storage_memory.go lines 64-66). -/
def StorageMemory.RemoveAll (sessionId : String) : Option SessionError :=
  some SessionError.disabled

/-! ## Helper lemmas -/

theorem StrIntMap.lookupTTL_set_self (m : StrIntMap) (k : String) (v : Int) :
    StrIntMap.lookupTTL (StrIntMap.set m k v) k = some v := by
  induction m with
  | nil => simp [StrIntMap.set, StrIntMap.lookupTTL]
  | cons p rest ih =>
      obtain ⟨k1, v1⟩ := p
      by_cases hk : k1 = k
      · simp [StrIntMap.set, StrIntMap.lookupTTL, hk]
      · simp [StrIntMap.set, StrIntMap.lookupTTL, hk, ih]

theorem StrIntMap.mem_keys_set (m : StrIntMap) (k a : String) (v : Int)
    (h : a ∈ (StrIntMap.set m k v).map Prod.fst) :
    a = k ∨ a ∈ m.map Prod.fst := by
  induction m with
  | nil => simpa [StrIntMap.set] using h
  | cons p rest ih =>
      obtain ⟨k1, v1⟩ := p
      by_cases hk : k1 = k
      · simp only [StrIntMap.set, if_pos hk, List.map_cons, List.mem_cons] at h
        rcases h with h | h
        · exact Or.inl h
        · exact Or.inr (List.mem_cons.mpr (Or.inr h))
      · simp only [StrIntMap.set, if_neg hk, List.map_cons, List.mem_cons] at h
        rcases h with h | h
        · exact Or.inr (List.mem_cons.mpr (Or.inl h))
        · rcases ih h with h1 | h1
          · exact Or.inl h1
          · exact Or.inr (List.mem_cons.mpr (Or.inr h1))

theorem StrIntMap.keysDistinct_set (m : StrIntMap) (k : String) (v : Int)
    (h : StrIntMap.KeysDistinct m) :
    StrIntMap.KeysDistinct (StrIntMap.set m k v) := by
  induction m with
  | nil => simp [StrIntMap.set, StrIntMap.KeysDistinct]
  | cons p rest ih =>
      obtain ⟨k1, v1⟩ := p
      simp only [StrIntMap.KeysDistinct, List.map_cons, List.nodup_cons] at h
      by_cases hk : k1 = k
      · subst hk
        simpa [StrIntMap.set, StrIntMap.KeysDistinct] using h
      · have h2 := ih h.2
        simp only [StrIntMap.set, hk, if_false, StrIntMap.KeysDistinct,
          List.map_cons, List.nodup_cons]
        refine ⟨fun hmem => ?_, h2⟩
        rcases StrIntMap.mem_keys_set rest k k1 v hmem with h3 | h3
        · exact hk h3
        · exact h.1 h3

theorem StrIntMap.countKey_eq_zero (m : StrIntMap) (k : String)
    (h : k ∉ m.map Prod.fst) : StrIntMap.countKey m k = 0 := by
  induction m with
  | nil => simp [StrIntMap.countKey]
  | cons p rest ih =>
      obtain ⟨k1, v1⟩ := p
      rw [List.map_cons, List.mem_cons, not_or] at h
      have hk : ¬ k1 = k := fun he => h.1 he.symm
      have h2 := ih h.2
      simp only [StrIntMap.countKey] at h2
      simp [StrIntMap.countKey, List.filter_cons, hk, h2]

theorem StrIntMap.countKey_set_self (m : StrIntMap) (k : String) (v : Int)
    (h : StrIntMap.KeysDistinct m) :
    StrIntMap.countKey (StrIntMap.set m k v) k = 1 := by
  induction m with
  | nil => simp [StrIntMap.set, StrIntMap.countKey, List.filter_cons]
  | cons p rest ih =>
      obtain ⟨k1, v1⟩ := p
      simp only [StrIntMap.KeysDistinct, List.map_cons, List.nodup_cons] at h
      by_cases hk : k1 = k
      · subst hk
        have h0 : StrIntMap.countKey rest k1 = 0 :=
          StrIntMap.countKey_eq_zero rest k1 h.1
        simp [StrIntMap.set, StrIntMap.countKey, List.filter_cons] at h0 ⊢
        exact h0
      · have h2 := ih h.2
        simp [StrIntMap.set, hk, StrIntMap.countKey, List.filter_cons] at h2 ⊢
        exact h2

theorem storeGet_storeSet_self (store : Store) (k : String) (v : Blob) :
    storeGet (storeSet store k v) k = some v := by
  induction store with
  | nil => simp [storeSet, storeGet]
  | cons p rest ih =>
      obtain ⟨k1, v1⟩ := p
      by_cases hk : k1 = k
      · simp [storeSet, storeGet, hk]
      · simp [storeSet, storeGet, hk, ih]

theorem tdiv_nanos_bounds (d : Int) (h : 0 ≤ d) :
    nanosPerSecond * Int.tdiv d nanosPerSecond ≤ d
  ∧ d < nanosPerSecond * (Int.tdiv d nanosPerSecond + 1) := by
  have hnp : nanosPerSecond = 1000000000 := rfl
  rw [hnp, Int.tdiv_eq_ediv h (by norm_num)]
  omega

theorem natLog2Step_inv (n k : Nat) (p : Nat × Nat) (hm : p.2 = n / 2 ^ p.1)
    (hub : p.2 < 2 ^ (2 * k)) (hpos : 0 < p.2) :
    (natLog2Step p k).2 = n / 2 ^ (natLog2Step p k).1
  ∧ (natLog2Step p k).2 < 2 ^ k ∧ 0 < (natLog2Step p k).2 := by
  obtain ⟨e, m⟩ := p
  simp only at hm hub hpos
  by_cases h : 2 ^ k ≤ m
  · simp only [natLog2Step, if_pos h]
    refine ⟨?_, ?_, ?_⟩
    · show m / 2 ^ k = n / 2 ^ (e + k)
      rw [hm, Nat.div_div_eq_div_mul, ← pow_add]
    · have hmm : m < 2 ^ k * 2 ^ k := by
        rw [← pow_add]
        have : 2 * k = k + k := by ring
        rw [this] at hub
        exact hub
      exact Nat.div_lt_of_lt_mul hmm
    · exact Nat.div_pos h (Nat.pos_pow_of_pos k (by norm_num))
  · simp only [natLog2Step, if_neg h]
    exact ⟨hm, by omega, hpos⟩

theorem natLog2_spec (n : Nat) (h1 : 0 < n) (h2 : n < 2 ^ 256) :
    2 ^ natLog2 n ≤ n ∧ n < 2 ^ (natLog2 n + 1) := by
  have h0 : ((0, n) : Nat × Nat).2 = n / 2 ^ ((0, n) : Nat × Nat).1 := by simp
  have s128 := natLog2Step_inv n 128 (0, n) h0 (by simpa using h2) h1
  have s64 := natLog2Step_inv n 64 _ s128.1 (by simpa using s128.2.1) s128.2.2
  have s32 := natLog2Step_inv n 32 _ s64.1 (by simpa using s64.2.1) s64.2.2
  have s16 := natLog2Step_inv n 16 _ s32.1 (by simpa using s32.2.1) s32.2.2
  have s8 := natLog2Step_inv n 8 _ s16.1 (by simpa using s16.2.1) s16.2.2
  have s4 := natLog2Step_inv n 4 _ s8.1 (by simpa using s8.2.1) s8.2.2
  have s2 := natLog2Step_inv n 2 _ s4.1 (by simpa using s4.2.1) s4.2.2
  have s1 := natLog2Step_inv n 1 _ s2.1 (by simpa using s2.2.1) s2.2.2
  obtain ⟨ha, hb, hc⟩ := s1
  rw [show (natLog2Step (natLog2Step (natLog2Step (natLog2Step (natLog2Step (natLog2Step
      (natLog2Step (natLog2Step (0, n) 128) 64) 32) 16) 8) 4) 2) 1).1 = natLog2 n from rfl] at ha
  have hone : n / 2 ^ natLog2 n = 1 := by omega
  constructor
  · exact (Nat.one_le_div_iff (Nat.pos_pow_of_pos _ (by norm_num))).mp (by omega)
  · have := (Nat.div_lt_iff_lt_mul (Nat.pos_pow_of_pos (natLog2 n) (by norm_num))).mp
      (by omega : n / 2 ^ natLog2 n < 2)
    calc n < 2 * 2 ^ natLog2 n := by linarith
    _ = 2 ^ (natLog2 n + 1) := by rw [pow_succ]; ring

theorem roundHalfEvenRat_cases (m n : Int) :
    roundHalfEvenRat m n = m / n ∨ roundHalfEvenRat m n = m / n + 1 := by
  simp only [roundHalfEvenRat]
  split
  · exact Or.inl rfl
  split
  · exact Or.inr rfl
  split
  · exact Or.inl rfl
  · exact Or.inr rfl

theorem roundHalfEvenRat_ediv_le (m n : Int) :
    m / n ≤ roundHalfEvenRat m n := by
  rcases roundHalfEvenRat_cases m n with h | h <;> omega

theorem roundHalfEvenRat_one (m : Int) : roundHalfEvenRat m 1 = m := by
  simp [roundHalfEvenRat, Int.emod_one]

theorem roundHalfEvenRat_bounds (m n : Int) (hn : 0 < n) :
    (m : ℚ) / (n : ℚ) - 1 / 2 ≤ (roundHalfEvenRat m n : ℚ)
  ∧ (roundHalfEvenRat m n : ℚ) ≤ (m : ℚ) / (n : ℚ) + 1 / 2 := by
  have hn0 : (0 : ℚ) < (n : ℚ) := by exact_mod_cast hn
  have hid : (n : ℚ) * ((m / n : Int) : ℚ) + ((m % n : Int) : ℚ) = (m : ℚ) := by
    exact_mod_cast Int.ediv_add_emod m n
  have hr0 : (0 : ℚ) ≤ ((m % n : Int) : ℚ) := by
    exact_mod_cast Int.emod_nonneg m (by omega)
  have hr1 : ((m % n : Int) : ℚ) < (n : ℚ) := by
    exact_mod_cast Int.emod_lt_of_pos m hn
  have hdiv : (m : ℚ) / (n : ℚ) = ((m / n : Int) : ℚ) + ((m % n : Int) : ℚ) / (n : ℚ) := by
    field_simp
    linarith [hid]
  have hu1 : ((m % n : Int) : ℚ) / (n : ℚ) < 1 := by
    rw [div_lt_one hn0]
    exact hr1
  have hu0 : (0 : ℚ) ≤ ((m % n : Int) : ℚ) / (n : ℚ) := div_nonneg hr0 (le_of_lt hn0)
  by_cases h1 : 2 * (m % n) < n
  · have hlt : ((m % n : Int) : ℚ) / (n : ℚ) < 1 / 2 := by
      rw [div_lt_iff₀ hn0]
      have : ((2 * (m % n) : Int) : ℚ) < (n : ℚ) := by exact_mod_cast h1
      push_cast at this
      linarith
    simp only [roundHalfEvenRat, if_pos h1]
    constructor <;> linarith [hdiv]
  · by_cases h2 : n < 2 * (m % n)
    · have hgt : 1 / 2 < ((m % n : Int) : ℚ) / (n : ℚ) := by
        rw [lt_div_iff₀ hn0]
        have : (n : ℚ) < ((2 * (m % n) : Int) : ℚ) := by exact_mod_cast h2
        push_cast at this
        linarith
      simp only [roundHalfEvenRat, if_neg h1, if_pos h2]
      push_cast
      constructor <;> linarith [hdiv]
    · have heq : ((m % n : Int) : ℚ) / (n : ℚ) = 1 / 2 := by
        have h3 : 2 * (m % n) = n := by omega
        have h4 : ((2 * (m % n) : Int) : ℚ) = (n : ℚ) := by exact_mod_cast congrArg Int.cast h3
        push_cast at h4
        rw [div_eq_iff (ne_of_gt hn0)]
        linarith
      by_cases h3 : (m / n) % 2 = 0
      · simp only [roundHalfEvenRat, if_neg h1, if_neg h2, if_pos h3]
        constructor <;> linarith [hdiv]
      · simp only [roundHalfEvenRat, if_neg h1, if_neg h2, if_neg h3]
        push_cast
        constructor <;> linarith [hdiv]

theorem qpow_natCast_int (k : Nat) : ((2 ^ k : Int) : ℚ) = (2 : ℚ) ^ (k : Int) := by
  rw [zpow_natCast]
  push_cast
  rfl

theorem qpow_cast_nat (k : Nat) : ((2 ^ k : Nat) : ℚ) = (2 : ℚ) ^ (k : Int) := by
  rw [zpow_natCast]
  push_cast
  rfl

theorem binade_bounds_of_le (a nn : ℚ) (t L M : Int) (hn : 0 < nn)
    (kA2 : a < 2 ^ (L + 1)) (kN1 : 2 ^ M ≤ nn)
    (hP : nn * 2 ^ (L - M) ≤ a) :
    2 ^ (L + t - M) ≤ a * 2 ^ t / nn ∧ a * 2 ^ t / nn < 2 ^ (L + t - M + 1) := by
  have hp1 : (0 : ℚ) < 2 ^ t := zpow_pos (by norm_num) t
  constructor
  · rw [le_div_iff₀ hn]
    have h1 : nn * 2 ^ (L - M) * 2 ^ t ≤ a * 2 ^ t :=
      mul_le_mul_of_nonneg_right hP hp1.le
    calc (2 : ℚ) ^ (L + t - M) * nn = nn * 2 ^ (L - M) * 2 ^ t := by
          rw [show L + t - M = (L - M) + t by ring,
            zpow_add₀ (by norm_num : (2 : ℚ) ≠ 0)]
          ring
      _ ≤ a * 2 ^ t := h1
  · rw [div_lt_iff₀ hn]
    calc a * 2 ^ t < 2 ^ (L + 1) * 2 ^ t := mul_lt_mul_of_pos_right kA2 hp1
      _ = 2 ^ (L + t - M + 1) * 2 ^ M := by
          rw [← zpow_add₀ (by norm_num : (2 : ℚ) ≠ 0),
            ← zpow_add₀ (by norm_num : (2 : ℚ) ≠ 0)]
          congr 1
          ring
      _ ≤ 2 ^ (L + t - M + 1) * nn :=
          mul_le_mul_of_nonneg_left kN1 (zpow_pos (by norm_num : (0:ℚ) < 2) _).le

theorem binade_bounds_of_gt (a nn : ℚ) (t L M : Int) (hn : 0 < nn)
    (kA1 : 2 ^ L ≤ a) (kN2 : nn < 2 ^ (M + 1))
    (hP : a < nn * 2 ^ (L - M)) :
    2 ^ (L + t - M - 1) ≤ a * 2 ^ t / nn ∧ a * 2 ^ t / nn < 2 ^ (L + t - M) := by
  have hp1 : (0 : ℚ) < 2 ^ t := zpow_pos (by norm_num) t
  constructor
  · rw [le_div_iff₀ hn]
    have h1 : (2 : ℚ) ^ (L + t - M - 1) * nn < 2 ^ (L + t - M - 1) * 2 ^ (M + 1) :=
      mul_lt_mul_of_pos_left kN2 (zpow_pos (by norm_num) _)
    have h2 : (2 : ℚ) ^ (L + t - M - 1) * 2 ^ (M + 1) = 2 ^ L * 2 ^ t := by
      rw [← zpow_add₀ (by norm_num : (2 : ℚ) ≠ 0),
        ← zpow_add₀ (by norm_num : (2 : ℚ) ≠ 0)]
      congr 1
      ring
    have h3 : (2 : ℚ) ^ L * 2 ^ t ≤ a * 2 ^ t :=
      mul_le_mul_of_nonneg_right kA1 hp1.le
    linarith
  · rw [div_lt_iff₀ hn]
    have h1 : a * 2 ^ t < nn * 2 ^ (L - M) * 2 ^ t :=
      mul_lt_mul_of_pos_right hP hp1
    have h2 : nn * 2 ^ (L - M) * 2 ^ t = 2 ^ (L + t - M) * nn := by
      rw [mul_assoc, ← zpow_add₀ (by norm_num : (2 : ℚ) ≠ 0),
        show L - M + t = L + t - M by ring]
      ring
    linarith

theorem valBinade_spec (m t : Int) (n : Nat) (hm : m ≠ 0) (hn : 0 < n)
    (hm2 : m.natAbs < 2 ^ 256) (hn2 : n < 2 ^ 256) :
    (2 : ℚ) ^ valBinade m t n ≤ |(m : ℚ)| * (2 : ℚ) ^ t / (n : ℚ)
  ∧ |(m : ℚ)| * (2 : ℚ) ^ t / (n : ℚ) < (2 : ℚ) ^ (valBinade m t n + 1) := by
  have ha : 0 < m.natAbs := by omega
  obtain ⟨hA1, hA2⟩ := natLog2_spec m.natAbs ha hm2
  obtain ⟨hN1, hN2⟩ := natLog2_spec n hn hn2
  have hn0 : (0 : ℚ) < (n : ℚ) := by exact_mod_cast hn
  simp only [valBinade]
  set L : Int := (natLog2 m.natAbs : Int) with hL
  set M : Int := (natLog2 n : Int) with hM
  have habs : ((m.natAbs : Nat) : ℚ) = |(m : ℚ)| := by
    rw [Int.cast_natAbs, Int.cast_abs]
  have kA1 : (2 : ℚ) ^ L ≤ |(m : ℚ)| := by
    rw [hL, ← qpow_cast_nat, ← habs]
    exact_mod_cast hA1
  have kA2 : |(m : ℚ)| < 2 ^ (L + 1) := by
    rw [hL, show ((natLog2 m.natAbs : Nat) : Int) + 1 = ((natLog2 m.natAbs + 1 : Nat) : Int) by push_cast; ring,
      ← qpow_cast_nat, ← habs]
    exact_mod_cast hA2
  have kN1 : (2 : ℚ) ^ M ≤ (n : ℚ) := by
    rw [hM, ← qpow_cast_nat]
    exact_mod_cast hN1
  have kN2 : (n : ℚ) < 2 ^ (M + 1) := by
    rw [hM, show ((natLog2 n : Nat) : Int) + 1 = ((natLog2 n + 1 : Nat) : Int) by push_cast; ring,
      ← qpow_cast_nat]
    exact_mod_cast hN2
  by_cases hML : M ≤ L
  · rw [if_pos hML]
    by_cases htest : (n : Int) * 2 ^ (L - M).toNat ≤ (m.natAbs : Int)
    · rw [if_pos htest]
      have hP : (n : ℚ) * (2 : ℚ) ^ (L - M) ≤ |(m : ℚ)| := by
        have hc : (((n : Int) * 2 ^ (L - M).toNat : Int) : ℚ) ≤ (((m.natAbs : Int) : Int) : ℚ) :=
          Int.cast_le.mpr htest
        push_cast at hc
        rwa [show ((2 : ℚ)) ^ ((L - M).toNat) = (2 : ℚ) ^ (L - M) from by
          rw [← zpow_natCast (2 : ℚ), Int.toNat_of_nonneg (by omega)]] at hc
      exact binade_bounds_of_le |(m : ℚ)| (n : ℚ) t L M hn0 kA2 kN1 hP
    · rw [if_neg htest]
      have hP : |(m : ℚ)| < (n : ℚ) * (2 : ℚ) ^ (L - M) := by
        push_neg at htest
        have hc : (((m.natAbs : Int) : Int) : ℚ) < (((n : Int) * 2 ^ (L - M).toNat : Int) : ℚ) :=
          Int.cast_lt.mpr htest
        push_cast at hc
        rwa [show ((2 : ℚ)) ^ ((L - M).toNat) = (2 : ℚ) ^ (L - M) from by
          rw [← zpow_natCast (2 : ℚ), Int.toNat_of_nonneg (by omega)]] at hc
      have hres := binade_bounds_of_gt |(m : ℚ)| (n : ℚ) t L M hn0 kA1 kN2 hP
      refine ⟨hres.1, ?_⟩
      rw [show L + t - M - 1 + 1 = L + t - M by ring]
      exact hres.2
  · rw [if_neg hML]
    have hML2 : L < M := by omega
    have hkey : (2 : ℚ) ^ (M - L) * (2 : ℚ) ^ (L - M) = 1 := by
      rw [← zpow_add₀ (by norm_num : (2 : ℚ) ≠ 0), show M - L + (L - M) = 0 by ring,
        zpow_zero]
    have hkpos : (0 : ℚ) < (2 : ℚ) ^ (L - M) := zpow_pos (by norm_num) _
    by_cases htest : (n : Int) ≤ (m.natAbs : Int) * 2 ^ (M - L).toNat
    · rw [if_pos htest]
      have hP : (n : ℚ) * (2 : ℚ) ^ (L - M) ≤ |(m : ℚ)| := by
        have hc : (((n : Int) : Int) : ℚ) ≤ (((m.natAbs : Int) * 2 ^ (M - L).toNat : Int) : ℚ) :=
          Int.cast_le.mpr htest
        push_cast at hc
        rw [show ((2 : ℚ)) ^ ((M - L).toNat) = (2 : ℚ) ^ (M - L) from by
          rw [← zpow_natCast (2 : ℚ), Int.toNat_of_nonneg (by omega)]] at hc
        calc (n : ℚ) * (2 : ℚ) ^ (L - M)
            ≤ |(m : ℚ)| * (2 : ℚ) ^ (M - L) * (2 : ℚ) ^ (L - M) :=
              mul_le_mul_of_nonneg_right hc hkpos.le
          _ = |(m : ℚ)| := by rw [mul_assoc, hkey, mul_one]
      exact binade_bounds_of_le |(m : ℚ)| (n : ℚ) t L M hn0 kA2 kN1 hP
    · rw [if_neg htest]
      have hP : |(m : ℚ)| < (n : ℚ) * (2 : ℚ) ^ (L - M) := by
        push_neg at htest
        have hc : (((m.natAbs : Int) * 2 ^ (M - L).toNat : Int) : ℚ) < (((n : Int) : Int) : ℚ) :=
          Int.cast_lt.mpr htest
        push_cast at hc
        rw [show ((2 : ℚ)) ^ ((M - L).toNat) = (2 : ℚ) ^ (M - L) from by
          rw [← zpow_natCast (2 : ℚ), Int.toNat_of_nonneg (by omega)]] at hc
        have h2 : |(m : ℚ)| * (2 : ℚ) ^ (M - L) * (2 : ℚ) ^ (L - M)
            < (n : ℚ) * (2 : ℚ) ^ (L - M) :=
          mul_lt_mul_of_pos_right hc hkpos
        rwa [mul_assoc, hkey, mul_one] at h2
      have hres := binade_bounds_of_gt |(m : ℚ)| (n : ℚ) t L M hn0 kA1 kN2 hP
      refine ⟨hres.1, ?_⟩
      rw [show L + t - M - 1 + 1 = L + t - M by ring]
      exact hres.2

theorem flVal_zero (t : Int) (n : Nat) : flVal 0 t n = ⟨0, 0⟩ := by
  simp [flVal]

theorem dyadic_val_zero : (Dyadic.mk 0 0).val = 0 := by
  simp [Dyadic.val]

theorem dyadic_val_ne_zero (x : Dyadic) (h : x.val ≠ 0) : x.m ≠ 0 := by
  intro hm
  apply h
  simp [Dyadic.val, hm]

theorem flVal_t (m t : Int) (n : Nat) (hm : m ≠ 0) :
    (flVal m t n).t = valBinade m t n - 52 := by
  simp [flVal, hm]

theorem flVal_repr (m t : Int) (n : Nat) (hm : m ≠ 0) (hn : 0 < n) :
    ∃ num den : Int, 0 < den
      ∧ flVal m t n = ⟨roundHalfEvenRat num den, valBinade m t n - 52⟩
      ∧ (num : ℚ) / (den : ℚ)
          = (m : ℚ) * (2 : ℚ) ^ t / (n : ℚ) * (2 : ℚ) ^ ((52 : Int) - valBinade m t n) := by
  have hnq : (0 : ℚ) < (n : ℚ) := by exact_mod_cast hn
  by_cases hs : 0 ≤ t + 52 - valBinade m t n
  · refine ⟨m * 2 ^ (t + 52 - valBinade m t n).toNat, (n : Int), by exact_mod_cast hn, ?_, ?_⟩
    · simp [flVal, hm, hs]
    · push_cast
      rw [show ((2 : ℚ)) ^ ((t + 52 - valBinade m t n).toNat)
          = (2 : ℚ) ^ (t + 52 - valBinade m t n) from by
        rw [← zpow_natCast (2 : ℚ), Int.toNat_of_nonneg hs]]
      rw [show t + 52 - valBinade m t n = t + ((52 : Int) - valBinade m t n) by ring,
        zpow_add₀ (by norm_num : (2 : ℚ) ≠ 0)]
      field_simp
      ring
  · have hspos : (0 : Int) ≤ -(t + 52 - valBinade m t n) := by omega
    refine ⟨m, (n : Int) * 2 ^ (-(t + 52 - valBinade m t n)).toNat,
      mul_pos (by exact_mod_cast hn) (pow_pos (by norm_num) _), ?_, ?_⟩
    · simp [flVal, hm, hs]
    · have h2s : ((2 : ℚ)) ^ (t + 52 - valBinade m t n) ≠ 0 :=
        (zpow_pos (by norm_num : (0 : ℚ) < 2) _).ne.symm
      push_cast
      rw [show ((2 : ℚ)) ^ ((-(t + 52 - valBinade m t n)).toNat)
          = (2 : ℚ) ^ (-(t + 52 - valBinade m t n)) from by
        rw [← zpow_natCast (2 : ℚ), Int.toNat_of_nonneg hspos]]
      rw [zpow_neg,
        show t + 52 - valBinade m t n = t + ((52 : Int) - valBinade m t n) by ring,
        zpow_add₀ (by norm_num : (2 : ℚ) ≠ 0)]
      have hz1 : ((2 : ℚ)) ^ t ≠ 0 := (zpow_pos (by norm_num : (0 : ℚ) < 2) _).ne.symm
      have hz2 : ((2 : ℚ)) ^ ((52 : Int) - valBinade m t n) ≠ 0 :=
        (zpow_pos (by norm_num : (0 : ℚ) < 2) _).ne.symm
      have hnq2 : (n : ℚ) ≠ 0 := hnq.ne.symm
      field_simp
      ring

theorem flVal_bounds (m t : Int) (n : Nat) (hm : m ≠ 0) (hn : 0 < n) :
    (flVal m t n).val ≤ (m : ℚ) * (2 : ℚ) ^ t / (n : ℚ) + (2 : ℚ) ^ (valBinade m t n - 53)
  ∧ (m : ℚ) * (2 : ℚ) ^ t / (n : ℚ) - (2 : ℚ) ^ (valBinade m t n - 53) ≤ (flVal m t n).val := by
  obtain ⟨num, den, hden, hrepr, hfrac⟩ := flVal_repr m t n hm hn
  have hR := roundHalfEvenRat_bounds num den hden
  have hval : (flVal m t n).val
      = (roundHalfEvenRat num den : ℚ) * (2 : ℚ) ^ (valBinade m t n - 52) := by
    rw [hrepr]
    rfl
  have hpos : (0 : ℚ) < (2 : ℚ) ^ (valBinade m t n - 52) := zpow_pos (by norm_num) _
  have h1 : (2 : ℚ) ^ ((52 : Int) - valBinade m t n) * (2 : ℚ) ^ (valBinade m t n - 52) = 1 := by
    rw [← zpow_add₀ (by norm_num : (2 : ℚ) ≠ 0),
      show (52 : Int) - valBinade m t n + (valBinade m t n - 52) = 0 by ring, zpow_zero]
  have h2 : (1 / 2 : ℚ) * (2 : ℚ) ^ (valBinade m t n - 52) = (2 : ℚ) ^ (valBinade m t n - 53) := by
    rw [show valBinade m t n - 53 = (-1 : Int) + (valBinade m t n - 52) by ring,
      zpow_add₀ (by norm_num : (2 : ℚ) ≠ 0)]
    norm_num
  constructor
  · rw [hval]
    calc (roundHalfEvenRat num den : ℚ) * (2 : ℚ) ^ (valBinade m t n - 52)
        ≤ ((num : ℚ) / (den : ℚ) + 1 / 2) * (2 : ℚ) ^ (valBinade m t n - 52) :=
          mul_le_mul_of_nonneg_right hR.2 hpos.le
      _ = (m : ℚ) * (2 : ℚ) ^ t / (n : ℚ) + (2 : ℚ) ^ (valBinade m t n - 53) := by
          rw [hfrac, add_mul, mul_assoc, h1, mul_one, h2]
  · rw [hval]
    calc (m : ℚ) * (2 : ℚ) ^ t / (n : ℚ) - (2 : ℚ) ^ (valBinade m t n - 53)
        = ((num : ℚ) / (den : ℚ) - 1 / 2) * (2 : ℚ) ^ (valBinade m t n - 52) := by
          rw [hfrac, sub_mul, mul_assoc, h1, mul_one, h2]
      _ ≤ (roundHalfEvenRat num den : ℚ) * (2 : ℚ) ^ (valBinade m t n - 52) :=
          mul_le_mul_of_nonneg_right hR.1 hpos.le

set_option maxHeartbeats 1000000 in
theorem flVal_ge_int (m t : Int) (n : Nat) (hm : m ≠ 0) (hn : 0 < n)
    (z : Int) (he : valBinade m t n ≤ 52)
    (hzq : (z : ℚ) ≤ (m : ℚ) * (2 : ℚ) ^ t / (n : ℚ)) :
    (z : ℚ) ≤ (flVal m t n).val := by
  obtain ⟨num, den, hden, hrepr, hfrac⟩ := flVal_repr m t n hm hn
  have hval : (flVal m t n).val
      = (roundHalfEvenRat num den : ℚ) * (2 : ℚ) ^ (valBinade m t n - 52) := by
    rw [hrepr]
    rfl
  have hkpos : (0 : ℚ) < (2 : ℚ) ^ ((52 : Int) - valBinade m t n) := zpow_pos (by norm_num) _
  have hknat : ((2 : ℚ)) ^ (((52 : Int) - valBinade m t n).toNat) = (2 : ℚ) ^ ((52 : Int) - valBinade m t n) := by
    rw [← zpow_natCast (2 : ℚ), Int.toNat_of_nonneg (by omega)]
  have hzz : ((z * 2 ^ (((52 : Int) - valBinade m t n)).toNat : Int) : ℚ) ≤ (num : ℚ) / (den : ℚ) := by
    push_cast
    rw [hknat, hfrac]
    exact mul_le_mul_of_nonneg_right hzq hkpos.le
  have hden0 : (0 : ℚ) < (den : ℚ) := by exact_mod_cast hden
  have hid : (num : ℚ) = (den : ℚ) * ((num / den : Int) : ℚ) + ((num % den : Int) : ℚ) := by
    exact_mod_cast (Int.ediv_add_emod num den).symm
  have hr1 : ((num % den : Int) : ℚ) < (den : ℚ) := by
    exact_mod_cast Int.emod_lt_of_pos num hden
  have hf_lt : (num : ℚ) / (den : ℚ) < ((num / den : Int) : ℚ) + 1 := by
    rw [div_lt_iff₀ hden0]
    nlinarith [hid, hr1]
  have hzz_int : z * 2 ^ (((52 : Int) - valBinade m t n)).toNat ≤ num / den := by
    by_contra hcon
    push_neg at hcon
    have h1 : ((num / den : Int) : ℚ) + 1 ≤ ((z * 2 ^ (((52 : Int) - valBinade m t n)).toNat : Int) : ℚ) := by
      have h2 : num / den + 1 ≤ z * 2 ^ (((52 : Int) - valBinade m t n)).toNat := by omega
      exact_mod_cast h2
    linarith [hzz, hf_lt]
  have hRge : num / den ≤ roundHalfEvenRat num den := roundHalfEvenRat_ediv_le num den
  rw [hval]
  have hfinal : ((z * 2 ^ (((52 : Int) - valBinade m t n)).toNat : Int) : ℚ)
        * (2 : ℚ) ^ (valBinade m t n - 52)
      ≤ (roundHalfEvenRat num den : ℚ) * (2 : ℚ) ^ (valBinade m t n - 52) := by
    apply mul_le_mul_of_nonneg_right _ (zpow_pos (by norm_num : (0 : ℚ) < 2) _).le
    exact_mod_cast le_trans hzz_int hRge
  calc (z : ℚ)
      = ((z * 2 ^ (((52 : Int) - valBinade m t n)).toNat : Int) : ℚ)
          * (2 : ℚ) ^ (valBinade m t n - 52) := by
        push_cast
        rw [hknat, mul_assoc, ← zpow_add₀ (by norm_num : (2 : ℚ) ≠ 0),
          show (52 : Int) - valBinade m t n + (valBinade m t n - 52) = 0 by ring,
          zpow_zero, mul_one]
    _ ≤ _ := hfinal

set_option maxHeartbeats 1000000 in
theorem flVal_m_bound (m t : Int) (n : Nat) (hm : m ≠ 0) (hn : 0 < n)
    (hm2 : m.natAbs < 2 ^ 256) (hn2 : n < 2 ^ 256) :
    (flVal m t n).m.natAbs ≤ 2 ^ 53 := by
  obtain ⟨num, den, hden, hrepr, hfrac⟩ := flVal_repr m t n hm hn
  obtain ⟨hs1, hs2⟩ := valBinade_spec m t n hm hn hm2 hn2
  have hR := roundHalfEvenRat_bounds num den hden
  have hmproj : (flVal m t n).m = roundHalfEvenRat num den := by rw [hrepr]
  have hn0 : (0 : ℚ) < (n : ℚ) := by exact_mod_cast hn
  have hqabs : |(m : ℚ) * (2 : ℚ) ^ t / (n : ℚ)| = |(m : ℚ)| * (2 : ℚ) ^ t / (n : ℚ) := by
    rw [abs_div, abs_mul, abs_of_pos (zpow_pos (by norm_num : (0 : ℚ) < 2) t),
      abs_of_pos hn0]
  have h53 : ((2 ^ (53 : Nat) : Int) : ℚ) = (2 : ℚ) ^ (53 : Int) := by
    rw [qpow_natCast_int]
    norm_num
  have hy : |(num : ℚ) / (den : ℚ)| < (2 : ℚ) ^ (53 : Int) := by
    rw [hfrac, abs_mul,
      abs_of_pos (zpow_pos (by norm_num : (0 : ℚ) < 2) ((52 : Int) - valBinade m t n)),
      hqabs]
    calc |(m : ℚ)| * (2 : ℚ) ^ t / (n : ℚ) * (2 : ℚ) ^ ((52 : Int) - valBinade m t n)
        < (2 : ℚ) ^ (valBinade m t n + 1) * (2 : ℚ) ^ ((52 : Int) - valBinade m t n) :=
          mul_lt_mul_of_pos_right hs2 (zpow_pos (by norm_num) _)
      _ = (2 : ℚ) ^ (53 : Int) := by
          rw [← zpow_add₀ (by norm_num : (2 : ℚ) ≠ 0),
            show valBinade m t n + 1 + ((52 : Int) - valBinade m t n) = 53 by ring]
  have hub : (roundHalfEvenRat num den : ℚ) < (2 : ℚ) ^ (53 : Int) + 1 / 2 := by
    have := le_abs_self ((num : ℚ) / (den : ℚ))
    linarith [hR.2]
  have hlb : -((2 : ℚ) ^ (53 : Int)) - 1 / 2 < (roundHalfEvenRat num den : ℚ) := by
    have := neg_abs_le ((num : ℚ) / (den : ℚ))
    linarith [hR.1]
  have h53q : (2 : ℚ) ^ (53 : Int) = 9007199254740992 := by
    rw [show (53 : Int) = ((53 : Nat) : Int) from rfl, zpow_natCast]
    norm_num
  have hub2 : roundHalfEvenRat num den ≤ 9007199254740992 := by
    have hc : (roundHalfEvenRat num den : ℚ) < ((9007199254740993 : Int) : ℚ) := by
      push_cast
      linarith [hub, h53q.le, h53q.ge]
    have hc2 : roundHalfEvenRat num den < 9007199254740993 := by exact_mod_cast hc
    omega
  have hlb2 : -9007199254740992 ≤ roundHalfEvenRat num den := by
    have hc : ((-9007199254740993 : Int) : ℚ) < (roundHalfEvenRat num den : ℚ) := by
      push_cast
      linarith [hlb, h53q.le, h53q.ge]
    have hc2 : -9007199254740993 < roundHalfEvenRat num den := by exact_mod_cast hc
    omega
  rw [hmproj]
  show (roundHalfEvenRat num den).natAbs ≤ 2 ^ 53
  have hpow : (2 : Nat) ^ 53 = 9007199254740992 := by norm_num
  rw [hpow]
  omega

theorem flVal_exact_int (v : Int) (h53 : v.natAbs < 2 ^ 53) :
    (flVal v 0 1).val = (v : ℚ)
  ∧ (-52 : Int) ≤ (flVal v 0 1).t
  ∧ (flVal v 0 1).m.natAbs < 2 ^ 53 := by
  by_cases hv : v = 0
  · subst hv
    refine ⟨?_, ?_, ?_⟩ <;> simp [flVal, Dyadic.val]
  · have ha : 0 < v.natAbs := by omega
    obtain ⟨hA1, hA2⟩ := natLog2_spec v.natAbs ha (by omega)
    have hL52 : natLog2 v.natAbs ≤ 52 := by
      by_contra hcon
      push_neg at hcon
      have : 2 ^ 53 ≤ 2 ^ natLog2 v.natAbs := Nat.pow_le_pow_right (by norm_num) hcon
      omega
    have hM1 : natLog2 1 = 0 := rfl
    have he : valBinade v 0 1 = (natLog2 v.natAbs : Int) := by
      simp only [valBinade, hM1, Nat.cast_zero, Nat.cast_one]
      rw [if_pos (by omega : (0 : Int) ≤ (natLog2 v.natAbs : Int))]
      rw [if_pos ?_]
      · omega
      · have hc : (2 : Int) ^ natLog2 v.natAbs ≤ (v.natAbs : Int) := by exact_mod_cast hA1
        simpa using hc
    have hs2 : valBinade v 0 1 ≤ 52 := by
      rw [he]
      omega
    have hs3 : (0 : Int) ≤ 52 - valBinade v 0 1 := by omega
    have hrepr : flVal v 0 1
        = ⟨v * 2 ^ ((52 : Int) - valBinade v 0 1).toNat, valBinade v 0 1 - 52⟩ := by
      simp [flVal, hv, roundHalfEvenRat_one, hs2]
    refine ⟨?_, ?_, ?_⟩
    · rw [hrepr]
      show ((v * 2 ^ ((52 : Int) - valBinade v 0 1).toNat : Int) : ℚ)
          * (2 : ℚ) ^ (valBinade v 0 1 - 52) = (v : ℚ)
      push_cast
      rw [show ((2 : ℚ)) ^ (((52 : Int) - valBinade v 0 1).toNat)
          = (2 : ℚ) ^ ((52 : Int) - valBinade v 0 1) from by
        rw [← zpow_natCast (2 : ℚ), Int.toNat_of_nonneg hs3]]
      rw [mul_assoc, ← zpow_add₀ (by norm_num : (2 : ℚ) ≠ 0),
        show (52 : Int) - valBinade v 0 1 + (valBinade v 0 1 - 52) = 0 by ring,
        zpow_zero, mul_one]
    · rw [hrepr]
      show (-52 : Int) ≤ valBinade v 0 1 - 52
      omega
    · rw [hrepr]
      show (v * 2 ^ ((52 : Int) - valBinade v 0 1).toNat).natAbs < 2 ^ 53
      rw [Int.natAbs_mul, Int.natAbs_pow]
      have hk : ((52 : Int) - valBinade v 0 1).toNat = 52 - natLog2 v.natAbs := by
        rw [he]
        omega
      rw [hk]
      show v.natAbs * 2 ^ (52 - natLog2 v.natAbs) < 2 ^ 53
      calc v.natAbs * 2 ^ (52 - natLog2 v.natAbs)
          < 2 ^ (natLog2 v.natAbs + 1) * 2 ^ (52 - natLog2 v.natAbs) := by
            have hp : 0 < 2 ^ (52 - natLog2 v.natAbs) := Nat.pos_pow_of_pos _ (by norm_num)
            exact Nat.mul_lt_mul_of_lt_of_le hA2 (le_refl _) hp
        _ = 2 ^ 53 := by
            have hke : natLog2 v.natAbs + 1 + (52 - natLog2 v.natAbs) = 53 := by omega
            rw [← pow_add, hke]

theorem float64Add_exact (x y : Dyadic) :
    ∃ ms ts : Int, float64Add x y = flVal ms ts 1
      ∧ (ms : ℚ) * (2 : ℚ) ^ ts = x.val + y.val
      ∧ ts = min x.t y.t := by
  by_cases h : x.t ≤ y.t
  · refine ⟨x.m + y.m * 2 ^ (y.t - x.t).toNat, x.t, ?_, ?_, (min_eq_left h).symm⟩
    · simp [float64Add, h]
    · push_cast
      rw [show ((2 : ℚ)) ^ ((y.t - x.t).toNat) = (2 : ℚ) ^ (y.t - x.t) from by
        rw [← zpow_natCast (2 : ℚ), Int.toNat_of_nonneg (by omega)]]
      rw [add_mul, mul_assoc, ← zpow_add₀ (by norm_num : (2 : ℚ) ≠ 0),
        show y.t - x.t + x.t = y.t by ring]
      rfl
  · push_neg at h
    refine ⟨x.m * 2 ^ (x.t - y.t).toNat + y.m, y.t, ?_, ?_, (min_eq_right h.le).symm⟩
    · simp [float64Add, not_le.mpr h]
    · push_cast
      rw [show ((2 : ℚ)) ^ ((x.t - y.t).toNat) = (2 : ℚ) ^ (x.t - y.t) from by
        rw [← zpow_natCast (2 : ℚ), Int.toNat_of_nonneg (by omega)]]
      rw [add_mul, mul_assoc, ← zpow_add₀ (by norm_num : (2 : ℚ) ≠ 0),
        show x.t - y.t + y.t = x.t by ring]
      rfl

theorem float64TruncToInt_eq (x : Dyadic) (z : Int) (hz : 0 ≤ z)
    (h1 : (z : ℚ) ≤ x.val) (h2 : x.val < (z : ℚ) + 1) :
    float64TruncToInt x = z := by
  by_cases ht : 0 ≤ x.t
  · have hval : x.val = ((x.m * 2 ^ x.t.toNat : Int) : ℚ) := by
      simp only [Dyadic.val]
      push_cast
      rw [show ((2 : ℚ)) ^ (x.t.toNat) = (2 : ℚ) ^ x.t from by
        rw [← zpow_natCast (2 : ℚ), Int.toNat_of_nonneg ht]]
    rw [hval] at h1 h2
    have hzw : z ≤ x.m * 2 ^ x.t.toNat := by exact_mod_cast h1
    have hwz : x.m * 2 ^ x.t.toNat < z + 1 := by
      have hc : ((x.m * 2 ^ x.t.toNat : Int) : ℚ) < ((z + 1 : Int) : ℚ) := by
        push_cast at h2 ⊢
        linarith
      exact_mod_cast hc
    simp only [float64TruncToInt, if_pos ht]
    omega
  · push_neg at ht
    have hk : (0 : Int) ≤ -x.t := by omega
    have hm0 : 0 ≤ x.m := by
      have hvpos : (0 : ℚ) ≤ x.val := le_trans (by exact_mod_cast hz) h1
      by_contra hcon
      push_neg at hcon
      have hneg : x.val < 0 := by
        simp only [Dyadic.val]
        apply mul_neg_of_neg_of_pos
        · exact_mod_cast hcon
        · exact zpow_pos (by norm_num) _
      linarith
    have htd : Int.tdiv x.m (2 ^ (-x.t).toNat) = x.m / 2 ^ (-x.t).toNat :=
      Int.tdiv_eq_ediv hm0 (by positivity)
    set K : Int := 2 ^ (-x.t).toNat with hK
    have hKpos : (0 : Int) < K := by rw [hK]; positivity
    have hid : x.m = K * (x.m / K) + x.m % K := (Int.ediv_add_emod x.m K).symm
    have hr0 : 0 ≤ x.m % K := Int.emod_nonneg x.m (by omega)
    have hr1 : x.m % K < K := Int.emod_lt_of_pos x.m hKpos
    have hKq : (0 : ℚ) < (K : ℚ) := by exact_mod_cast hKpos
    have hvaleq : x.val = (x.m : ℚ) / (K : ℚ) := by
      simp only [Dyadic.val]
      rw [hK]
      push_cast
      rw [show ((2 : ℚ)) ^ ((-x.t).toNat) = (2 : ℚ) ^ (-x.t) from by
        rw [← zpow_natCast (2 : ℚ), Int.toNat_of_nonneg hk], zpow_neg, div_eq_mul_inv, inv_inv]
    have hidq : (K : ℚ) * ((x.m / K : Int) : ℚ) + ((x.m % K : Int) : ℚ) = (x.m : ℚ) := by
      exact_mod_cast hid.symm
    have hfq : ((x.m / K : Int) : ℚ) ≤ x.val := by
      rw [hvaleq, le_div_iff₀ hKq]
      have h3 : (0 : ℚ) ≤ ((x.m % K : Int) : ℚ) := by exact_mod_cast hr0
      nlinarith [hidq]
    have hfq2 : x.val < ((x.m / K : Int) : ℚ) + 1 := by
      rw [hvaleq, div_lt_iff₀ hKq]
      have h3 : ((x.m % K : Int) : ℚ) < (K : ℚ) := by exact_mod_cast hr1
      nlinarith [hidq]
    have hz1 : z ≤ x.m / K := by
      have hc1 : (z : ℚ) < ((x.m / K : Int) : ℚ) + 1 := lt_of_le_of_lt h1 hfq2
      have hc2 : (z : ℚ) < ((x.m / K + 1 : Int) : ℚ) := by push_cast at hc1 ⊢; linarith
      have hc3 : z < x.m / K + 1 := by exact_mod_cast hc2
      omega
    have hz2 : x.m / K ≤ z := by
      have hc1 : ((x.m / K : Int) : ℚ) < (z : ℚ) + 1 := lt_of_le_of_lt hfq h2
      have hc2 : ((x.m / K : Int) : ℚ) < ((z + 1 : Int) : ℚ) := by push_cast at hc1 ⊢; linarith
      have hc3 : x.m / K < z + 1 := by exact_mod_cast hc2
      omega
    simp only [float64TruncToInt, if_neg (not_le.mpr ht)]
    rw [htd]
    omega

set_option maxHeartbeats 1000000 in
theorem nsecFloat_props (nsec : Int) (h0 : 0 ≤ nsec) (h1 : nsec < 1000000000) :
    0 ≤ (flVal (flVal nsec 0 1).m (flVal nsec 0 1).t 1000000000).val
  ∧ (flVal (flVal nsec 0 1).m (flVal nsec 0 1).t 1000000000).val
      ≤ (nsec : ℚ) / 1000000000 + (2 : ℚ) ^ (-54 : Int)
  ∧ (-82 : Int) ≤ (flVal (flVal nsec 0 1).m (flVal nsec 0 1).t 1000000000).t
  ∧ (flVal (flVal nsec 0 1).m (flVal nsec 0 1).t 1000000000).m.natAbs ≤ 2 ^ 53 := by
  by_cases hns : nsec = 0
  · subst hns
    have hz : flVal (flVal (0 : Int) 0 1).m (flVal (0 : Int) 0 1).t 1000000000
        = (⟨0, 0⟩ : Dyadic) := by
      rw [flVal_zero]
      exact flVal_zero 0 1000000000
    rw [hz]
    refine ⟨by simp [Dyadic.val], ?_, by norm_num, by norm_num⟩
    rw [dyadic_val_zero]
    positivity
  · obtain ⟨hBval, hBt, hBm⟩ := flVal_exact_int nsec (by omega)
    have hBm0 : (flVal nsec 0 1).m ≠ 0 := by
      apply dyadic_val_ne_zero
      rw [hBval]
      exact_mod_cast hns
    have hq : ((flVal nsec 0 1).m : ℚ) * (2 : ℚ) ^ (flVal nsec 0 1).t / ((1000000000 : Nat) : ℚ)
        = (nsec : ℚ) / 1000000000 := by
      have hv : ((flVal nsec 0 1).m : ℚ) * (2 : ℚ) ^ (flVal nsec 0 1).t = (flVal nsec 0 1).val := rfl
      rw [hv, hBval]
      norm_num
    have hspec := valBinade_spec (flVal nsec 0 1).m (flVal nsec 0 1).t 1000000000 hBm0
      (by norm_num) (by omega) (by norm_num)
    have hBmpos : 0 < (flVal nsec 0 1).m := by
      rcases lt_trichotomy (flVal nsec 0 1).m 0 with h | h | h
      · exfalso
        have hneg : (flVal nsec 0 1).val < 0 := by
          show ((flVal nsec 0 1).m : ℚ) * (2 : ℚ) ^ (flVal nsec 0 1).t < 0
          apply mul_neg_of_neg_of_pos
          · exact_mod_cast h
          · exact zpow_pos (by norm_num) _
        rw [hBval] at hneg
        have : nsec < 0 := by exact_mod_cast hneg
        omega
      · exact absurd h hBm0
      · exact h
    have habsq : |((flVal nsec 0 1).m : ℚ)| = ((flVal nsec 0 1).m : ℚ) :=
      abs_of_pos (by exact_mod_cast hBmpos)
    rw [habsq, hq] at hspec
    have he1ub : valBinade (flVal nsec 0 1).m (flVal nsec 0 1).t 1000000000 ≤ -1 := by
      by_contra hcon
      push_neg at hcon
      have hzp : (2 : ℚ) ^ (0 : Int) ≤ (2 : ℚ) ^ valBinade (flVal nsec 0 1).m (flVal nsec 0 1).t 1000000000 :=
        zpow_le_zpow_right₀ (by norm_num) (by omega)
      have hlt1 : (nsec : ℚ) / 1000000000 < 1 := by
        rw [div_lt_one (by norm_num)]
        exact_mod_cast h1
      rw [zpow_zero] at hzp
      linarith [hspec.1]
    have he1lb : (-30 : Int) ≤ valBinade (flVal nsec 0 1).m (flVal nsec 0 1).t 1000000000 := by
      by_contra hcon
      push_neg at hcon
      have hzp : (2 : ℚ) ^ (valBinade (flVal nsec 0 1).m (flVal nsec 0 1).t 1000000000 + 1)
          ≤ (2 : ℚ) ^ (-30 : Int) :=
        zpow_le_zpow_right₀ (by norm_num) (by omega)
      have hge : (1 : ℚ) / 1000000000 ≤ (nsec : ℚ) / 1000000000 := by
        gcongr
        exact_mod_cast (by omega : (1 : Int) ≤ nsec)
      have h30 : (2 : ℚ) ^ (-30 : Int) < (1 : ℚ) / 1000000000 := by
        rw [show (-30 : Int) = -((30 : Nat) : Int) by norm_num, zpow_neg, zpow_natCast]
        norm_num
      have hchain : (nsec : ℚ) / 1000000000 < (1 : ℚ) / 1000000000 :=
        lt_trans (lt_of_lt_of_le hspec.2 hzp) h30
      exact absurd hchain (not_lt.mpr hge)
    refine ⟨?_, ?_, ?_, ?_⟩
    · have h := flVal_ge_int (flVal nsec 0 1).m (flVal nsec 0 1).t 1000000000 hBm0
        (by norm_num) 0 (by omega) ?_
      · simpa using h
      · rw [hq]
        positivity
    · have h := (flVal_bounds (flVal nsec 0 1).m (flVal nsec 0 1).t 1000000000 hBm0
        (by norm_num)).1
      rw [hq] at h
      have h2 : (2 : ℚ) ^ (valBinade (flVal nsec 0 1).m (flVal nsec 0 1).t 1000000000 - 53)
          ≤ (2 : ℚ) ^ (-54 : Int) :=
        zpow_le_zpow_right₀ (by norm_num) (by omega)
      exact le_trans h (add_le_add_left h2 _)
    · rw [flVal_t (flVal nsec 0 1).m (flVal nsec 0 1).t 1000000000 hBm0]
      omega
    · exact flVal_m_bound (flVal nsec 0 1).m (flVal nsec 0 1).t 1000000000 hBm0
        (by norm_num) (by omega) (by norm_num)

set_option maxHeartbeats 1600000 in
theorem durSeconds_eq_tdiv_of_small (d : Int) (h0 : 0 ≤ d)
    (hlt : d < 16777216 * 1000000000) :
    durSeconds d = Int.tdiv d 1000000000 := by
  have hsec_ed : Int.tdiv d 1000000000 = d / 1000000000 := Int.tdiv_eq_ediv h0 (by norm_num)
  have hnsec_em : Int.tmod d 1000000000 = d % 1000000000 := Int.tmod_eq_emod h0 (by norm_num)
  have hsec0 : 0 ≤ Int.tdiv d 1000000000 := by rw [hsec_ed]; omega
  have hsec1 : Int.tdiv d 1000000000 < 16777216 := by rw [hsec_ed]; omega
  have hns0 : 0 ≤ Int.tmod d 1000000000 := by rw [hnsec_em]; omega
  have hns1 : Int.tmod d 1000000000 < 1000000000 := by rw [hnsec_em]; omega
  obtain ⟨hC0, hCub, hCt, hCm⟩ := nsecFloat_props (Int.tmod d 1000000000) hns0 hns1
  obtain ⟨hAval, hAt, hAm⟩ := flVal_exact_int (Int.tdiv d 1000000000) (by omega)
  obtain ⟨ms, ts, hSrepr, hSsum, hSts⟩ := float64Add_exact (flVal (Int.tdiv d 1000000000) 0 1)
    (flVal (flVal (Int.tmod d 1000000000) 0 1).m (flVal (Int.tmod d 1000000000) 0 1).t 1000000000)
  have hgoal : durSeconds d = float64TruncToInt (flVal ms ts 1) :=
    congrArg float64TruncToInt hSrepr
  rw [hgoal]
  have hSsum2 : (ms : ℚ) * (2 : ℚ) ^ ts = ((Int.tdiv d 1000000000 : Int) : ℚ)
      + (flVal (flVal (Int.tmod d 1000000000) 0 1).m
          (flVal (Int.tmod d 1000000000) 0 1).t 1000000000).val := by
    rw [hSsum, hAval]
  have h54 : (0 : ℚ) < (2 : ℚ) ^ (-54 : Int) := zpow_pos (by norm_num) _
  have h30 : (0 : ℚ) < (2 : ℚ) ^ (-30 : Int) := zpow_pos (by norm_num) _
  have hnum : ((Int.tmod d 1000000000 : Int) : ℚ) / 1000000000
      + (2 : ℚ) ^ (-54 : Int) + (2 : ℚ) ^ (-30 : Int) < 1 := by
    have hn9 : ((Int.tmod d 1000000000 : Int) : ℚ) ≤ 999999999 := by
      exact_mod_cast (by omega : Int.tmod d 1000000000 ≤ 999999999)
    have hdivle : ((Int.tmod d 1000000000 : Int) : ℚ) / 1000000000
        ≤ (999999999 : ℚ) / 1000000000 := by gcongr
    have h54e : (2 : ℚ) ^ (-54 : Int) = ((2 : ℚ) ^ (54 : Nat))⁻¹ := by
      rw [show (-54 : Int) = -((54 : Nat) : Int) by norm_num, zpow_neg, zpow_natCast]
    have h30e : (2 : ℚ) ^ (-30 : Int) = ((2 : ℚ) ^ (30 : Nat))⁻¹ := by
      rw [show (-30 : Int) = -((30 : Nat) : Int) by norm_num, zpow_neg, zpow_natCast]
    rw [h54e, h30e]
    have hfin : (999999999 : ℚ) / 1000000000 + ((2 : ℚ) ^ (54 : Nat))⁻¹
        + ((2 : ℚ) ^ (30 : Nat))⁻¹ < 1 := by norm_num
    linarith
  have hCub1 : (flVal (flVal (Int.tmod d 1000000000) 0 1).m
      (flVal (Int.tmod d 1000000000) 0 1).t 1000000000).val < 1 := by
    linarith [hCub, hnum, h30]
  by_cases hms : ms = 0
  · have hsum0 : ((Int.tdiv d 1000000000 : Int) : ℚ)
        + (flVal (flVal (Int.tmod d 1000000000) 0 1).m
            (flVal (Int.tmod d 1000000000) 0 1).t 1000000000).val = 0 := by
      rw [← hSsum2, hms]
      push_cast
      ring
    have hsecq : ((Int.tdiv d 1000000000 : Int) : ℚ) = 0 := by
      have hc0 : (0 : ℚ) ≤ ((Int.tdiv d 1000000000 : Int) : ℚ) := by exact_mod_cast hsec0
      linarith [hC0]
    have hsecz : Int.tdiv d 1000000000 = 0 := by exact_mod_cast hsecq
    rw [hms, flVal_zero, hsecz]
    norm_num [float64TruncToInt]
  · have hmsne : ((ms : ℚ)) ≠ 0 := by exact_mod_cast hms
    have h2ts : (0 : ℚ) < (2 : ℚ) ^ ts := zpow_pos (by norm_num) _
    have hsumpos : (0 : ℚ) < ((Int.tdiv d 1000000000 : Int) : ℚ)
        + (flVal (flVal (Int.tmod d 1000000000) 0 1).m
            (flVal (Int.tmod d 1000000000) 0 1).t 1000000000).val := by
      have hne : (ms : ℚ) * (2 : ℚ) ^ ts ≠ 0 := mul_ne_zero hmsne h2ts.ne.symm
      rw [hSsum2] at hne
      have hge0 : (0 : ℚ) ≤ ((Int.tdiv d 1000000000 : Int) : ℚ)
          + (flVal (flVal (Int.tmod d 1000000000) 0 1).m
              (flVal (Int.tmod d 1000000000) 0 1).t 1000000000).val := by
        have hx : (0 : ℚ) ≤ ((Int.tdiv d 1000000000 : Int) : ℚ) := by exact_mod_cast hsec0
        linarith [hC0]
      exact lt_of_le_of_ne hge0 (Ne.symm hne)
    have hmspos : 0 < ms := by
      by_contra hcon
      push_neg at hcon
      have hmsneg : ms < 0 := lt_of_le_of_ne hcon hms
      have hneg : (ms : ℚ) * (2 : ℚ) ^ ts < 0 :=
        mul_neg_of_neg_of_pos (by exact_mod_cast hmsneg) h2ts
      rw [hSsum2] at hneg
      linarith
    have hts_lb : (-82 : Int) ≤ ts := by
      rw [hSts]
      exact le_min (le_trans (by norm_num) hAt) hCt
    have hmsq : (ms : ℚ) = (((Int.tdiv d 1000000000 : Int) : ℚ)
        + (flVal (flVal (Int.tmod d 1000000000) 0 1).m
            (flVal (Int.tmod d 1000000000) 0 1).t 1000000000).val) * (2 : ℚ) ^ (-ts) := by
      have h1 : (ms : ℚ) * (2 : ℚ) ^ ts * (2 : ℚ) ^ (-ts)
          = (((Int.tdiv d 1000000000 : Int) : ℚ)
            + (flVal (flVal (Int.tmod d 1000000000) 0 1).m
                (flVal (Int.tmod d 1000000000) 0 1).t 1000000000).val) * (2 : ℚ) ^ (-ts) := by
        rw [hSsum2]
      rwa [mul_assoc, ← zpow_add₀ (by norm_num : (2 : ℚ) ≠ 0),
        show ts + -ts = 0 by ring, zpow_zero, mul_one] at h1
  -- continued in next block
    have h24 : (2 : ℚ) ^ (24 : Int) = 16777216 := by
      rw [show (24 : Int) = ((24 : Nat) : Int) by norm_num, zpow_natCast]
      norm_num
    have hsec15 : ((Int.tdiv d 1000000000 : Int) : ℚ) ≤ 16777215 := by
      exact_mod_cast (by omega : Int.tdiv d 1000000000 ≤ 16777215)
    have hsum_ub : ((Int.tdiv d 1000000000 : Int) : ℚ)
        + (flVal (flVal (Int.tmod d 1000000000) 0 1).m
            (flVal (Int.tmod d 1000000000) 0 1).t 1000000000).val ≤ (2 : ℚ) ^ (24 : Int) := by
      rw [h24]
      linarith [hCub1]
    have hms_ub : ms ≤ 2 ^ 106 := by
      have hexp : (2 : ℚ) ^ (-ts) ≤ (2 : ℚ) ^ (82 : Int) :=
        zpow_le_zpow_right₀ (by norm_num) (by omega)
      have hc : (ms : ℚ) ≤ (2 : ℚ) ^ (24 : Int) * (2 : ℚ) ^ (82 : Int) := by
        rw [hmsq]
        apply mul_le_mul hsum_ub hexp (zpow_pos (by norm_num) _).le (by positivity)
      have h106 : (2 : ℚ) ^ (24 : Int) * (2 : ℚ) ^ (82 : Int) = ((2 ^ 106 : Int) : ℚ) := by
        rw [← zpow_add₀ (by norm_num : (2 : ℚ) ≠ 0),
          show (24 : Int) + 82 = ((106 : Nat) : Int) by norm_num, zpow_natCast]
        push_cast
        norm_num
      rw [h106] at hc
      exact_mod_cast hc
    have hms2 : ms.natAbs < 2 ^ 256 := by omega
    have hspecS := valBinade_spec ms ts 1 hms (by norm_num) hms2 (by norm_num)
    have habsS : |(ms : ℚ)| = (ms : ℚ) := abs_of_pos (by exact_mod_cast hmspos)
    rw [habsS, Nat.cast_one, div_one, hSsum2] at hspecS
    have he2ub : valBinade ms ts 1 ≤ 23 := by
      have hlt24 : ((Int.tdiv d 1000000000 : Int) : ℚ)
          + (flVal (flVal (Int.tmod d 1000000000) 0 1).m
              (flVal (Int.tmod d 1000000000) 0 1).t 1000000000).val < (2 : ℚ) ^ (24 : Int) := by
        rw [h24]
        linarith [hCub1]
      have hlt : (2 : ℚ) ^ valBinade ms ts 1 < (2 : ℚ) ^ (24 : Int) :=
        lt_of_le_of_lt hspecS.1 hlt24
      have hcomp := (zpow_lt_zpow_iff_right₀ (by norm_num : (1 : ℚ) < 2)).mp hlt
      omega
    have hlow : ((Int.tdiv d 1000000000 : Int) : ℚ) ≤ (flVal ms ts 1).val := by
      apply flVal_ge_int ms ts 1 hms (by norm_num) (Int.tdiv d 1000000000) (by omega)
      rw [Nat.cast_one, div_one, hSsum2]
      linarith [hC0]
    have hup : (flVal ms ts 1).val < ((Int.tdiv d 1000000000 : Int) : ℚ) + 1 := by
      have hb := (flVal_bounds ms ts 1 hms (by norm_num)).1
      rw [Nat.cast_one, div_one, hSsum2] at hb
      have h2e : (2 : ℚ) ^ (valBinade ms ts 1 - 53) ≤ (2 : ℚ) ^ (-30 : Int) :=
        zpow_le_zpow_right₀ (by norm_num) (by omega)
      have hstep : (flVal ms ts 1).val ≤ ((Int.tdiv d 1000000000 : Int) : ℚ)
          + (flVal (flVal (Int.tmod d 1000000000) 0 1).m
              (flVal (Int.tmod d 1000000000) 0 1).t 1000000000).val + (2 : ℚ) ^ (-30 : Int) :=
        le_trans hb (add_le_add_left h2e _)
      have hc30 : (flVal (flVal (Int.tmod d 1000000000) 0 1).m
              (flVal (Int.tmod d 1000000000) 0 1).t 1000000000).val + (2 : ℚ) ^ (-30 : Int)
          < 1 :=
        lt_of_le_of_lt (add_le_add_right hCub _) hnum
      have hfinal : ((Int.tdiv d 1000000000 : Int) : ℚ)
          + (flVal (flVal (Int.tmod d 1000000000) 0 1).m
              (flVal (Int.tmod d 1000000000) 0 1).t 1000000000).val + (2 : ℚ) ^ (-30 : Int)
          < ((Int.tdiv d 1000000000 : Int) : ℚ) + 1 := by
        rw [add_assoc]
        exact add_lt_add_left hc30 _
      exact lt_of_le_of_lt hstep hfinal
    exact float64TruncToInt_eq (flVal ms ts 1) (Int.tdiv d 1000000000) hsec0 hlow hup

theorem keysDistinct_updateTTL (m : StrIntMap) (sessionId : String)
    (ttl : Duration) (h : StrIntMap.KeysDistinct m) :
    StrIntMap.KeysDistinct (UpdateTTL m sessionId ttl).1 := by
  by_cases hc : DefaultStorageRedisLoopInterval ≤ ttl
  · simpa [UpdateTTL, hc] using
      StrIntMap.keysDistinct_set m sessionId (durSeconds ttl) h
  · simpa [UpdateTTL, hc] using h

/-! ## Claim theorems -/

/-- C1 (amended): for every session id and TTL, `UpdateTTL` leaves the
Pending-Renewal Set unchanged when the TTL is strictly below the 10-second
flush interval, and upserts `(id, int(ttl.Seconds()))` into the set when the
TTL is at least the flush interval, where `int(ttl.Seconds())` is computed
through float64 (`durSeconds`): below `2 ^ 24` seconds it equals the
truncated whole seconds of the TTL, but for larger TTLs the float64 rounding
can make it one second larger than the truncation. -/
theorem updateTTL_queue_policy (m : StrIntMap) (sessionId : String)
    (ttl : Duration) :
    (ttl < DefaultStorageRedisLoopInterval → (UpdateTTL m sessionId ttl).1 = m)
  ∧ (DefaultStorageRedisLoopInterval ≤ ttl →
      (UpdateTTL m sessionId ttl).1 = StrIntMap.set m sessionId (durSeconds ttl)
    ∧ StrIntMap.lookupTTL (UpdateTTL m sessionId ttl).1 sessionId
        = some (durSeconds ttl)) := by
  constructor
  · intro hlt
    simp [UpdateTTL, not_le.mpr hlt]
  · intro hge
    exact ⟨by simp [UpdateTTL, hge],
      by simp [UpdateTTL, hge, StrIntMap.lookupTTL_set_self]⟩

/-- Witness for C1: a 5-second touch is dropped, a 30-second touch queues
the entry with 30 seconds. -/
theorem updateTTL_queue_policy_witness :
    (UpdateTTL [] "abc" (5 * nanosPerSecond)).1 = []
  ∧ (UpdateTTL [] "abc" (30 * nanosPerSecond)).1 = [("abc", 30)] := by
  constructor
  · exact (updateTTL_queue_policy [] "abc" (5 * nanosPerSecond)).1 (by decide)
  · have h := ((updateTTL_queue_policy [] "abc" (30 * nanosPerSecond)).2
      (by decide)).1
    rw [h]
    decide

/-- C1 counterexample: a touch with ttl = 16777216999999999 ns (about 194
days plus just under a second) queues 16777217 seconds, one more than the
truncated whole seconds 16777216, because `ttl.Seconds()` passes through
float64 and the sub-second part rounds up. -/
theorem updateTTL_float_rounding_counterexample :
    (UpdateTTL [] "abc" 16777216999999999).1 = [("abc", 16777217)]
  ∧ Int.tdiv 16777216999999999 1000000000 = 16777216
  ∧ (16777217 : Int) ≠ 16777216 := by
  decide

/-- C2 (amended): provided no queued entry carries the empty string as its
session id, one invocation of the flusher timer callback empties the
Pending-Renewal Set, issues exactly one EXPIRE command per drained entry, and
logs each failed entry without aborting the batch or re-queueing anything:
the drained set and the issued commands are the same for every failure
oracle `fail`. -/
theorem flushTimer_drains_all (ns : String) (fail : ExpireCmd → Bool)
    (m : StrIntMap) (h : ∀ p ∈ m, p.1 ≠ "") :
    (flushTimer ns fail m).remaining = []
  ∧ (flushTimer ns fail m).calls = m.map (fun p => doUpdateTTL ns p.1 p.2)
  ∧ (flushTimer ns fail m).logged
      = (m.map (fun p => doUpdateTTL ns p.1 p.2)).filter fail := by
  induction m with
  | nil => exact ⟨rfl, rfl, rfl⟩
  | cons p rest ih =>
      obtain ⟨sid, ts⟩ := p
      have hs : ¬ sid = "" := h (sid, ts) (List.mem_cons_self _ _)
      have hrest : ∀ q ∈ rest, q.1 ≠ "" := fun q hq =>
        h q (List.mem_cons_of_mem _ hq)
      have ihr := ih hrest
      by_cases hf : fail (doUpdateTTL ns sid ts)
      · refine ⟨by simp [flushTimer, hs, ihr.1], ?_, ?_⟩
        · simp [flushTimer, hs, ihr.2.1]
        · simp [flushTimer, hs, hf, List.filter_cons, ihr.2.2]
      · refine ⟨by simp [flushTimer, hs, ihr.1], ?_, ?_⟩
        · simp [flushTimer, hs, ihr.2.1]
        · simp [flushTimer, hs, hf, List.filter_cons, ihr.2.2]

/-- Witness for C2: two queued entries, the backend failing for the second;
both are drained, both EXPIRE commands are issued, the failed one is logged. -/
theorem flushTimer_drains_all_witness :
    (flushTimer "gf:" (fun c => c.key == "gf:b") [("a", 30), ("b", 20)]).remaining
      = []
  ∧ (flushTimer "gf:" (fun c => c.key == "gf:b") [("a", 30), ("b", 20)]).calls
      = [⟨"gf:a", 30⟩, ⟨"gf:b", 20⟩]
  ∧ (flushTimer "gf:" (fun c => c.key == "gf:b") [("a", 30), ("b", 20)]).logged
      = [⟨"gf:b", 20⟩] := by
  have h := flushTimer_drains_all "gf:" (fun c => c.key == "gf:b")
    [("a", 30), ("b", 20)] (by decide)
  refine ⟨h.1, ?_, ?_⟩
  · rw [h.2.1]
    decide
  · rw [h.2.2]
    decide

/-- C2 counterexample: with the two entries `("", 30)` and `("a", 20)` queued
and a backend that never fails, one flusher invocation leaves `("a", 20)`
queued and issues no EXPIRE command at all, because popping the empty-id
entry terminates the drain loop (it is the same value `Pop` uses to signal an
empty set). -/
theorem flushTimer_empty_id_counterexample :
    (flushTimer "gf:" (fun _ => false) [("", 30), ("a", 20)]).remaining
      = [("a", 20)]
  ∧ (flushTimer "gf:" (fun _ => false) [("", 30), ("a", 20)]).calls = [] := by
  exact ⟨rfl, rfl⟩

/-- C3 (amended): provided the second TTL `t2` is at least the flush
interval, touching twice leaves exactly one pending entry for the id, holding
`int(t2.Seconds())` as the program computes it through float64
(last-writer-wins), whatever the first TTL `t1` was. -/
theorem touch_dedup_last_writer_wins (m : StrIntMap) (sessionId : String)
    (t1 t2 : Duration) (hm : StrIntMap.KeysDistinct m)
    (h2 : DefaultStorageRedisLoopInterval ≤ t2) :
    StrIntMap.lookupTTL
        (UpdateTTL (UpdateTTL m sessionId t1).1 sessionId t2).1 sessionId
      = some (durSeconds t2)
  ∧ StrIntMap.countKey
        (UpdateTTL (UpdateTTL m sessionId t1).1 sessionId t2).1 sessionId
      = 1 := by
  have hm1 := keysDistinct_updateTTL m sessionId t1 hm
  constructor
  · simp [UpdateTTL, h2, StrIntMap.lookupTTL_set_self]
  · simp only [UpdateTTL, if_pos h2]
    exact StrIntMap.countKey_set_self _ sessionId (durSeconds t2) hm1

/-- Witness for C3 (amended) at t1 = 30s, t2 = 20s from the empty set. -/
theorem touch_dedup_last_writer_wins_witness :
    StrIntMap.lookupTTL
        (UpdateTTL (UpdateTTL [] "abc" (30 * nanosPerSecond)).1 "abc"
          (20 * nanosPerSecond)).1 "abc"
      = some 20
  ∧ StrIntMap.countKey
        (UpdateTTL (UpdateTTL [] "abc" (30 * nanosPerSecond)).1 "abc"
          (20 * nanosPerSecond)).1 "abc"
      = 1 := by
  have h := touch_dedup_last_writer_wins [] "abc" (30 * nanosPerSecond)
    (20 * nanosPerSecond) (by simp [StrIntMap.KeysDistinct]) (by decide)
  refine ⟨?_, h.2⟩
  rw [h.1]
  decide

/-- C3 counterexample: touching with t1 = 30s and then t2 = 5s leaves the
single pending entry holding 30 seconds (the first TTL), not the seconds of
t2, because the sub-interval second touch is dropped. -/
theorem touch_dedup_counterexample :
    (UpdateTTL (UpdateTTL [] "abc" (30 * nanosPerSecond)).1 "abc"
        (5 * nanosPerSecond)).1
      = [("abc", 30)]
  ∧ durSeconds (5 * nanosPerSecond) = 5
  ∧ (30 : Int) ≠ 5 := by
  decide

/-- C4: saving a session map and immediately loading the same id from the
resulting store yields a map whose entries are exactly the saved entries
(field names and integer values preserved), for every map, every TTL of at
least one second, and every prior store contents. -/
theorem saveSession_loadSession_roundtrip (ns sessionId : String)
    (store : Store) (M : StrAnyMap) (ttl : Duration) (freshRef : Nat)
    (h : nanosPerSecond ≤ ttl) :
    GetSession
        (redisGet (SetSession ns store sessionId M ttl).1
          (sessionIdToRedisKey ns sessionId))
        none freshRef
      = Except.ok (some ⟨freshRef, M.entries⟩) := by
  simp [SetSession, redisGet, GetSession, jsonMarshal, storeGet_storeSet_self,
    NewStrAnyMapFrom]

/-- Witness for C4: a one-field integer payload round-trips through the
store at TTL exactly one second. -/
theorem saveSession_loadSession_roundtrip_witness :
    nanosPerSecond ≤ (nanosPerSecond : Duration)
  ∧ GetSession
        (redisGet (SetSession "gf:" [] "s1" ⟨3, [("n", JVal.number 42)]⟩
            nanosPerSecond).1
          (sessionIdToRedisKey "gf:" "s1"))
        none 9
      = Except.ok (some ⟨9, [("n", JVal.number 42)]⟩) :=
  ⟨le_refl nanosPerSecond,
    saveSession_loadSession_roundtrip "gf:" "s1" []
      ⟨3, [("n", JVal.number 42)]⟩ nanosPerSecond 9 (le_refl nanosPerSecond)⟩

/-- C5: a load whose GET reply is an absent record returns a nil map and a
nil error; a backend I/O failure or an undecodable payload returns a non-nil
error; and an error outcome is never the same value as the not-found
outcome. -/
theorem loadSession_miss_vs_failure (data : Option StrAnyMap)
    (freshRef : Nat) :
    GetSession (Except.ok none) data freshRef = Except.ok none
  ∧ (∀ msg, GetSession (Except.error msg) data freshRef
        = Except.error (LoadErr.redisFailure msg))
  ∧ GetSession (Except.ok (some Blob.corrupt)) data freshRef
      = Except.error LoadErr.decodeFailure
  ∧ (∀ n, GetSession (Except.ok (some (Blob.json (JVal.number n)))) data
        freshRef = Except.error LoadErr.decodeFailure)
  ∧ (∀ e, (Except.error e : Except LoadErr (Option StrAnyMap))
        ≠ Except.ok none) := by
  refine ⟨rfl, fun msg => rfl, rfl, fun n => rfl, fun e he => ?_⟩
  exact Except.noConfusion he

/-- C6 (amended): the SETEX sent by `SetSession` and the value queued by
`UpdateTTL` both carry the same conversion `durSeconds ttl` of the TTL, the
float64-computed `int64(ttl.Seconds())` / `int(ttl.Seconds())`.  For
durations from zero up to (but excluding) `2 ^ 24` seconds this conversion
is exactly the whole number of seconds with the sub-second remainder
dropped; beyond that range the float64 rounding of `Seconds` can round the
sub-second part up, making the carried value one second larger than the
truncation. -/
theorem ttl_seconds_conversion (ns sessionId : String) (store : Store)
    (M : StrAnyMap) (m : StrIntMap) (ttl : Int) :
    (SetSession ns store sessionId M ttl).2.ttlSeconds = durSeconds ttl
  ∧ (DefaultStorageRedisLoopInterval ≤ ttl →
      StrIntMap.lookupTTL (UpdateTTL m sessionId ttl).1 sessionId
        = some (durSeconds ttl))
  ∧ (0 ≤ ttl → ttl < 16777216 * 1000000000 →
      durSeconds ttl = Int.tdiv ttl 1000000000
    ∧ nanosPerSecond * durSeconds ttl ≤ ttl
    ∧ ttl < nanosPerSecond * (durSeconds ttl + 1)) := by
  refine ⟨rfl,
    fun hge => by simp [UpdateTTL, hge, StrIntMap.lookupTTL_set_self],
    fun h0 hlt => ?_⟩
  have heq := durSeconds_eq_tdiv_of_small ttl h0 hlt
  have hb := tdiv_nanos_bounds ttl h0
  rw [heq]
  exact ⟨rfl, hb.1, hb.2⟩

/-- Witness for C6 at ttl = 10.5 seconds: both paths carry 10 seconds, and
the conversion agrees with the truncation. -/
theorem ttl_seconds_conversion_witness :
    (SetSession "gf:" [] "s1" ⟨0, []⟩ 10500000000).2.ttlSeconds = 10
  ∧ StrIntMap.lookupTTL (UpdateTTL [] "s1" 10500000000).1 "s1" = some 10
  ∧ durSeconds 10500000000 = Int.tdiv 10500000000 1000000000 := by
  have h := ttl_seconds_conversion "gf:" "s1" [] ⟨0, []⟩ [] 10500000000
  refine ⟨?_, ?_, (h.2.2 (by decide) (by decide)).1⟩
  · rw [h.1]
    decide
  · rw [h.2.1 (by decide)]
    decide

/-- C6 counterexample: at ttl = 16777216999999999 ns the SETEX carries
16777217 seconds, one more than the truncated whole seconds 16777216,
because the float64 value of `ttl.Seconds()` rounds the sub-second part
up. -/
theorem setSession_float_rounding_counterexample :
    (SetSession "gf:" [] "s1" ⟨0, []⟩ 16777216999999999).2.ttlSeconds
      = 16777217
  ∧ Int.tdiv 16777216999999999 1000000000 = 16777216
  ∧ (16777217 : Int) ≠ 16777216 := by
  refine ⟨?_, by decide, by decide⟩
  show durSeconds 16777216999999999 = 16777217
  decide

/-- C7: every disabled operation of the redis variant (`New`, `Get`, `Data`,
`GetSize`, `Set`, `SetMap`, `Remove`) and of the memory variant (the same
seven plus `RemoveAll`) returns the same stable disabled-sentinel error for
every input. -/
theorem disabled_operations_sentinel :
    (∀ ttl, (StorageRedis.New ttl).2 = some SessionError.disabled)
  ∧ (∀ sessionId key,
      (StorageRedis.Get sessionId key).2 = some SessionError.disabled)
  ∧ (∀ sessionId, (StorageRedis.Data sessionId).2 = some SessionError.disabled)
  ∧ (∀ sessionId,
      (StorageRedis.GetSize sessionId).2 = some SessionError.disabled)
  ∧ (∀ sessionId key value ttl,
      StorageRedis.Set sessionId key value ttl = some SessionError.disabled)
  ∧ (∀ sessionId data ttl,
      StorageRedis.SetMap sessionId data ttl = some SessionError.disabled)
  ∧ (∀ sessionId key,
      StorageRedis.Remove sessionId key = some SessionError.disabled)
  ∧ (∀ ttl, (StorageMemory.New ttl).2 = some SessionError.disabled)
  ∧ (∀ sessionId key,
      (StorageMemory.Get sessionId key).2 = some SessionError.disabled)
  ∧ (∀ sessionId,
      (StorageMemory.Data sessionId).2 = some SessionError.disabled)
  ∧ (∀ sessionId,
      (StorageMemory.GetSize sessionId).2 = some SessionError.disabled)
  ∧ (∀ sessionId key value ttl,
      StorageMemory.Set sessionId key value ttl = some SessionError.disabled)
  ∧ (∀ sessionId data ttl,
      StorageMemory.SetMap sessionId data ttl = some SessionError.disabled)
  ∧ (∀ sessionId key,
      StorageMemory.Remove sessionId key = some SessionError.disabled)
  ∧ (∀ sessionId,
      StorageMemory.RemoveAll sessionId = some SessionError.disabled) := by
  refine ⟨fun _ => rfl, fun _ _ => rfl, fun _ => rfl, fun _ => rfl,
    fun _ _ _ _ => rfl, fun _ _ _ => rfl, fun _ _ => rfl, fun _ => rfl,
    fun _ _ => rfl, fun _ => rfl, fun _ => rfl, fun _ _ _ _ => rfl,
    fun _ _ _ => rfl, fun _ _ => rfl, fun _ => rfl⟩

/-- C8: loading an existing record whose payload decodes to entries, with a
non-nil pre-existing map supplied, returns a map with the same identity
(`ref`) as the supplied map and with its contents replaced by the decoded
entries; the fresh-allocation reference is not used. -/
theorem loadSession_inplace_replace (fields : JObj) (d : StrAnyMap)
    (freshRef : Nat) :
    GetSession (Except.ok (some (Blob.json (JVal.objVal fields)))) (some d)
        freshRef
      = Except.ok (some (StrAnyMap.mk d.ref fields)) := rfl

/-- C9: `UpdateTTL` returns a nil error for every session id, every TTL and
every state of the Pending-Renewal Set, whether the touch was queued or
dropped. -/
theorem updateTTL_always_succeeds (m : StrIntMap) (sessionId : String)
    (ttl : Duration) :
    (UpdateTTL m sessionId ttl).2 = none := rfl

/-- C10: a stored payload decoding to the JSON value null is reported as
not-found (nil map, nil error), not as an empty session and not as a decode
error. -/
theorem loadSession_null_payload_not_found (data : Option StrAnyMap)
    (freshRef : Nat) :
    GetSession (Except.ok (some (Blob.json JVal.null))) data freshRef
      = Except.ok none := rfl
